import Mathlib

/-!
# Verification of the sqlite3 tutorial record store (src/main.py)

A shallow embedding of the single-table sqlite3 tutorial program.  The
database is a single optional table of 6-field text rows (`person`); each
Python function of src/main.py becomes a Lean function on that state.

Modelling decisions, all taken from the source and SQLite semantics:

* The `person` table (CREATE TABLE in `create_table`, src/main.py:28-29) has
  the six TEXT columns username, email, firstname, lastname, biography,
  occupation, in that order; a row is a `Person`.
* A database state is `DB`: `none` when the `person` table does not exist,
  `some rows` when it exists and holds `rows` in insertion (rowid) order.
  SQLite scans a plain table in rowid order, so result sets without an
  ORDER BY appear in insertion order.
* Statement failures that the Python code does not catch (`no such table`
  on INSERT/SELECT, caught `table already exists` on CREATE) are modelled
  with `Except SqlError`; `create_table` catches its failure and returns a
  `Bool`, exactly as the `try/except` in src/main.py:25-34 does.
* `ORDER BY <text column>` uses SQLite's default BINARY collation: memcmp
  on the UTF-8 encoding, which coincides with code-point lexicographic
  order.  `strLe` implements that order directly.
* `LIKE` (used by `search_biography_partial` and
  `search_lastname_partial_fullname` in src/main.py, embedded here as
  `search_biography_like` and `search_lastname_like_fullname`) is SQLite's
  pattern match: `%` matches any sequence, `_` any single character, and
  ordinary characters compare case-insensitively for ASCII only
  (SQLite folds only A-Z).  `likeMatch` implements this.
-/

namespace SqliteTutorial

/-- Byte/code-point lexicographic `≤` on character lists: SQLite's default
BINARY collation on TEXT values (memcmp of the UTF-8 encodings, which orders
exactly like code points). -/
def strLeChars : List Char → List Char → Bool
  | [], _ => true
  | _ :: _, [] => false
  | a :: as, b :: bs =>
    if a.toNat < b.toNat then true
    else if b.toNat < a.toNat then false
    else strLeChars as bs

/-- BINARY-collation `≤` on strings. -/
def strLe (a b : String) : Bool := strLeChars a.data b.data

/-- Does `f` accept some suffix of the list (the list itself included)? -/
def anySuffix (f : List Char → Bool) : List Char → Bool
  | [] => f []
  | c :: cs => f (c :: cs) || anySuffix f cs

/-- SQLite `LIKE` pattern matching, `likeMatch pattern text`: `%` matches any
(possibly empty) sequence, `_` matches any single character, and any other
pattern character matches case-insensitively, folding ASCII `A`-`Z` only
(`Char.toLower` folds exactly that range), as SQLite's LIKE does without ICU. -/
def likeMatch : List Char → List Char → Bool
  | [], s => s.isEmpty
  | p :: ps, s =>
    if p = '%' then anySuffix (likeMatch ps) s
    else
      match s with
      | [] => false
      | c :: cs => (if p = '_' then true else p.toLower == c.toLower) && likeMatch ps cs

/-- `sqlLike s pat` embeds the SQL expression `s LIKE pat`. -/
def sqlLike (s pat : String) : Bool := likeMatch pat.data s.data

/-- The character list contains no LIKE wildcard (`%` or `_`). -/
def noWildL (p : List Char) : Prop := ∀ c ∈ p, c ≠ '%' ∧ c ≠ '_'

instance (p : List Char) : Decidable (noWildL p) := List.decidableBAll _ _

/-- The string contains no LIKE wildcard (`%` or `_`). -/
def noWild (s : String) : Prop := noWildL s.data

instance (s : String) : Decidable (noWild s) := by unfold noWild; infer_instance

/-- Case-insensitive (ASCII folding) substring containment:
`needle` occurs inside `hay` up to ASCII case. -/
def containsCI (needle hay : String) : Prop :=
  (needle.data.map Char.toLower) <:+: (hay.data.map Char.toLower)

instance (needle hay : String) : Decidable (containsCI needle hay) := by
  unfold containsCI; infer_instance

/-- One row of the `person` table, in the column order of the CREATE TABLE
statement in src/main.py:28-29:
`(username TEXT, email TEXT, firstname TEXT, lastname TEXT, biography TEXT, occupation TEXT)`. -/
structure Person where
  username : String
  email : String
  firstname : String
  lastname : String
  biography : String
  occupation : String
deriving DecidableEq

/-- The state of `database.db`: `person = none` when the `person` table does
not exist, `person = some rows` when it exists with `rows` in insertion
(rowid) order. -/
structure DB where
  person : Option (List Person)
deriving DecidableEq

/-- The sqlite3 errors the program can hit on this schema: CREATE TABLE on an
existing table, and any statement against a missing table. -/
inductive SqlError where
  | tableAlreadyExists
  | noSuchTable
deriving DecidableEq

/-- `ORDER BY lastname` comparison between rows (BINARY collation). -/
def lastnameLe (a b : Person) : Prop := strLe a.lastname b.lastname = true

instance : DecidableRel lastnameLe := fun a b => by unfold lastnameLe; infer_instance

/-- `ORDER BY firstname` comparison between `(firstname, lastname)` result
pairs (BINARY collation). -/
def firstnamePairLe (a b : String × String) : Prop := strLe a.1 b.1 = true

instance : DecidableRel firstnamePairLe := fun a b => by unfold firstnamePairLe; infer_instance

/-- `create_table()` (src/main.py:22-34): runs `CREATE TABLE person (...)`;
sqlite3 raises `OperationalError: table person already exists` when the table
exists, the bare `except:` turns any such failure into `False`, otherwise the
empty table is created and the function returns `True`. -/
def create_table (db : DB) : DB × Bool :=
  match db.person with
  | some _ => (db, false)
  | none => ({ person := some [] }, true)

/-- `drop_table()` (src/main.py:36-45): `DROP TABLE IF EXISTS person`;
removes the table when present, does nothing otherwise, returns nothing. -/
def drop_table (_db : DB) : DB := { person := none }

/-- `insert_table(person)` (src/main.py:47-54):
`INSERT INTO person VALUES (?,?,?,?,?,?)`; appends one row; an error
(no such table) propagates uncaught. -/
def insert_table (person : Person) (db : DB) : Except SqlError DB :=
  match db.person with
  | none => .error .noSuchTable
  | some rows => .ok { person := some (rows ++ [person]) }

/-- The row inserted by the driver `main()` (src/main.py:129). -/
def neo : Person :=
  { username := "Neo", email := "ThomasAnderson@gmail.com", firstname := "Thomas",
    lastname := "Anderson", biography := "Thomas Anderson is a Computer Programmer.",
    occupation := "Computer Programmer" }

/-- First element of the hardcoded list `people` in `populate_table`
(src/main.py:62). -/
def janey : Person :=
  { username := "Janey", email := "JaneDoe@gmail.com", firstname := "Jane",
    lastname := "Doe", biography := "Jane Doe is a Software Engineer.",
    occupation := "Software Engineer" }

/-- Second element of the hardcoded list `people` (src/main.py:63). -/
def joey : Person :=
  { username := "Joey", email := "JoeShmo@gmail.com", firstname := "Joseph",
    lastname := "Shmo", biography := "Joseph Shmo is a Data Scientist.",
    occupation := "Data Scientist" }

/-- Third element of the hardcoded list `people` (src/main.py:64). -/
def jonny : Person :=
  { username := "Jonny", email := "JohnSmith@gmail.com", firstname := "John",
    lastname := "Smith", biography := "John Doe is a Database Administrator.",
    occupation := "Database Administrator" }

/-- The list `people` hardcoded inside `populate_table` (src/main.py:62-65). -/
def people : List Person := [janey, joey, jonny]

/-- `populate_table()` (src/main.py:56-68): takes no argument;
`executemany('INSERT INTO person VALUES (?,?,?,?,?,?)', people)` appends the
three hardcoded rows in one batch statement; an error propagates uncaught. -/
def populate_table (db : DB) : Except SqlError DB :=
  match db.person with
  | none => .error .noSuchTable
  | some rows => .ok { person := some (rows ++ people) }

/-- Modelled from the spec: `InsertMany(people: sequence of 6-tuples)` as the
spec words it — an operation that takes the sequence of rows to append as its
parameter and appends exactly those rows in one batch statement.  The source's
batch insert (`populate_table`, src/main.py:56-68) has no such parameter; this
definition exists only to compare the spec's claim with the code. -/
def insertManySpec (rowsToAdd : List Person) (db : DB) : Except SqlError DB :=
  match db.person with
  | none => .error .noSuchTable
  | some rows => .ok { person := some (rows ++ rowsToAdd) }

/-- `fetch_table()` (src/main.py:70-80): `SELECT * FROM person ORDER BY
lastname`, collecting every result row.  The pair returns the (unchanged)
database state alongside the result, so that the read's effect on the state
is itself a stated fact rather than a typing convention. -/
def fetch_table (db : DB) : Except SqlError (DB × List Person) :=
  match db.person with
  | none => .error .noSuchTable
  | some rows => .ok (db, List.insertionSort lastnameLe rows)

/-- `search_lastname_exact(lastname)` (src/main.py:82-94):
`SELECT * FROM person WHERE lastname=?` then a single `fetchone()` appended to
a list — the first matching row in scan (insertion) order, or the `None`
sentinel, wrapped in a one-element list. -/
def search_lastname_exact (lastname : String) (db : DB) :
    Except SqlError (DB × List (Option Person)) :=
  match db.person with
  | none => .error .noSuchTable
  | some rows => .ok (db, [rows.find? (fun r => r.lastname == lastname)])

/-- `search_biography_partial(bio)` (src/main.py:96-107), embedded under a
wildcard-free Lean name: `SELECT * FROM person WHERE biography LIKE ?` with
pattern `'%'+bio+'%'`, then `fetchone()` — the first matching row in scan
order, or `None`. -/
def search_biography_like (bio : String) (db : DB) :
    Except SqlError (DB × Option Person) :=
  match db.person with
  | none => .error .noSuchTable
  | some rows => .ok (db, rows.find? (fun r => sqlLike r.biography ("%" ++ bio ++ "%")))

/-- `search_lastname_partial_fullname(find)` (src/main.py:109-120), embedded
under a wildcard-free Lean name: `SELECT firstname, lastname FROM person WHERE
lastname LIKE ? ORDER BY firstname` with pattern `'%'+find+'%'`, then
`fetchall()` — every matching row, projected to (firstname, lastname) and
sorted by firstname. -/
def search_lastname_like_fullname (find : String) (db : DB) :
    Except SqlError (DB × List (String × String)) :=
  match db.person with
  | none => .error .noSuchTable
  | some rows =>
    .ok (db, List.insertionSort firstnamePairLe
      (((rows.filter (fun r => sqlLike r.lastname ("%" ++ find ++ "%")))).map
        (fun r => (r.firstname, r.lastname))))

/-- The driver `main()` (src/main.py:122-134) up to its first output:
`drop_table()`, `create_table()`; when creation succeeds, `insert_table` of
`neo`, `populate_table()`, `fetch_table()`; yields the creation flag and the
fetched rows. -/
def main_scenario (db : DB) : Except SqlError (Bool × List Person) :=
  let db1 := drop_table db
  match create_table db1 with
  | (_, false) => .ok (false, [])
  | (db2, true) => do
    let db3 ← insert_table neo db2
    let db4 ← populate_table db3
    let (_, rows) ← fetch_table db4
    .ok (true, rows)

/-- The database state after running a read operation, given the state `db` it
was run on: the state the operation returned when it succeeded, the untouched
`db` when it failed before returning. -/
def dbAfter {α : Type} (r : Except SqlError (DB × α)) (db : DB) : DB :=
  match r with
  | .ok (db2, _) => db2
  | .error _ => db

/-! ## Properties of the BINARY-collation order -/

theorem strLeChars_total : ∀ as bs, strLeChars as bs = true ∨ strLeChars bs as = true := by
  intro as
  induction as with
  | nil => intro bs; left; rfl
  | cons a as ih =>
    intro bs
    cases bs with
    | nil => right; rfl
    | cons b bs =>
      simp only [strLeChars]
      rcases Nat.lt_trichotomy a.toNat b.toNat with h | h | h
      · left; simp [h]
      · have h1 : ¬ a.toNat < b.toNat := by omega
        have h2 : ¬ b.toNat < a.toNat := by omega
        simpa [h1, h2] using ih bs
      · right; simp [h, Nat.lt_asymm h]

theorem strLeChars_trans : ∀ as bs cs, strLeChars as bs = true → strLeChars bs cs = true →
    strLeChars as cs = true := by
  intro as
  induction as with
  | nil => intro bs cs _ _; rfl
  | cons a as ih =>
    intro bs cs hab hbc
    cases bs with
    | nil => simp [strLeChars] at hab
    | cons b bs =>
      cases cs with
      | nil => simp [strLeChars] at hbc
      | cons c cs =>
        simp only [strLeChars] at hab hbc ⊢
        split at hab
        · rename_i h1
          split at hbc
          · rename_i h2; simp [show a.toNat < c.toNat by omega]
          · split at hbc
            · simp at hbc
            · rename_i h2 h3
              simp [show a.toNat < c.toNat by omega]
        · split at hab
          · simp at hab
          · rename_i h1 h2
            split at hbc
            · rename_i h3; simp [show a.toNat < c.toNat by omega]
            · split at hbc
              · simp at hbc
              · rename_i h3 h4
                have h5 : ¬ a.toNat < c.toNat := by omega
                have h6 : ¬ c.toNat < a.toNat := by omega
                rw [if_neg h5, if_neg h6]
                exact ih bs cs hab hbc

theorem strLe_total (a b : String) : strLe a b = true ∨ strLe b a = true :=
  strLeChars_total a.data b.data

theorem strLe_trans {a b c : String} (h1 : strLe a b = true) (h2 : strLe b c = true) :
    strLe a c = true :=
  strLeChars_trans a.data b.data c.data h1 h2

/-! ## Characterization of SQLite LIKE on wildcard-free search strings -/

theorem anySuffix_iff (f : List Char → Bool) : ∀ s,
    (anySuffix f s = true ↔ ∃ t, t <:+ s ∧ f t = true) := by
  intro s
  induction s with
  | nil =>
    simp only [anySuffix]
    constructor
    · intro h; exact ⟨[], List.suffix_rfl, h⟩
    · rintro ⟨t, ht, hf⟩
      rw [List.suffix_nil] at ht
      subst ht; exact hf
  | cons c cs ih =>
    simp only [anySuffix, Bool.or_eq_true, ih]
    constructor
    · rintro (h | ⟨t, ht, hf⟩)
      · exact ⟨c :: cs, List.suffix_rfl, h⟩
      · exact ⟨t, ht.trans (List.suffix_cons c cs), hf⟩
    · rintro ⟨t, ht, hf⟩
      rcases List.suffix_cons_iff.mp ht with rfl | ht2
      · exact Or.inl hf
      · exact Or.inr ⟨t, ht2, hf⟩

theorem likeMatch_pct_any (t : List Char) : likeMatch ['%'] t = true := by
  have h : likeMatch ['%'] t = anySuffix (likeMatch []) t := by
    simp [likeMatch]
  rw [h, anySuffix_iff]
  exact ⟨[], List.nil_suffix, rfl⟩

theorem likeMatch_append_pct : ∀ p, noWildL p → ∀ t,
    (likeMatch (p ++ ['%']) t = true ↔
      ∃ t₁ t₂, t = t₁ ++ t₂ ∧ t₁.map Char.toLower = p.map Char.toLower) := by
  intro p
  induction p with
  | nil =>
    intro _ t
    simp only [List.nil_append, List.map_nil]
    constructor
    · intro _
      exact ⟨[], t, rfl, rfl⟩
    · intro _
      exact likeMatch_pct_any t
  | cons a ps ih =>
    intro hp t
    have ha := hp a (by simp)
    have hps : noWildL ps := fun c hc => hp c (by simp [hc])
    cases t with
    | nil =>
      simp only [List.cons_append, likeMatch, if_neg ha.1]
      constructor
      · intro h; exact absurd h (by simp)
      · rintro ⟨t₁, t₂, het, hm⟩
        exfalso
        cases t₁ with
        | nil => simp at hm
        | cons x xs => simp at het
    | cons c cs =>
      simp only [List.cons_append, likeMatch, if_neg ha.1, if_neg ha.2, List.append_eq,
        Bool.and_eq_true, beq_iff_eq, ih hps cs, List.map_cons]
      constructor
      · rintro ⟨hl, t₁, t₂, rfl, hm⟩
        exact ⟨c :: t₁, t₂, rfl, by simp [hl, hm]⟩
      · rintro ⟨t₁, t₂, het, hm⟩
        cases t₁ with
        | nil => simp at hm
        | cons x xs =>
          simp only [List.cons_append, List.cons.injEq] at het
          obtain ⟨rfl, rfl⟩ := het
          simp only [List.map_cons, List.cons.injEq] at hm
          exact ⟨hm.1.symm, xs, t₂, rfl, hm.2⟩

theorem likeMatch_wrap (p : List Char) (hp : noWildL p) (s : List Char) :
    likeMatch ('%' :: (p ++ ['%'])) s = true ↔
      (p.map Char.toLower) <:+: (s.map Char.toLower) := by
  have h1 : likeMatch ('%' :: (p ++ ['%'])) s = anySuffix (likeMatch (p ++ ['%'])) s := by
    simp [likeMatch]
  rw [h1, anySuffix_iff]
  constructor
  · rintro ⟨t, ⟨u, rfl⟩, hm⟩
    rw [likeMatch_append_pct p hp t] at hm
    obtain ⟨t₁, t₂, rfl, hmap⟩ := hm
    refine ⟨u.map Char.toLower, t₂.map Char.toLower, ?_⟩
    simp [hmap]
  · rintro ⟨u, v, huv⟩
    have huv2 : List.map Char.toLower s = u ++ (List.map Char.toLower p ++ v) := by
      rw [← huv]; simp [List.append_assoc]
    rw [List.map_eq_append_iff] at huv2
    obtain ⟨s₁, s₂, rfl, hs₁, hs₂⟩ := huv2
    rw [List.map_eq_append_iff] at hs₂
    obtain ⟨s₃, s₄, rfl, hs₃, hs₄⟩ := hs₂
    refine ⟨s₃ ++ s₄, ⟨s₁, rfl⟩, ?_⟩
    rw [likeMatch_append_pct p hp]
    exact ⟨s₃, s₄, rfl, hs₃⟩

theorem data_wrap_pct (s : String) : ("%" ++ s ++ "%").data = '%' :: (s.data ++ ['%']) := by
  have h : ("%" : String).data = ['%'] := rfl
  simp [String.data_append, h]

theorem sqlLike_wrap_iff (needle hay : String) (h : noWild needle) :
    sqlLike hay ("%" ++ needle ++ "%") = true ↔ containsCI needle hay := by
  unfold sqlLike containsCI
  rw [data_wrap_pct]
  exact likeMatch_wrap needle.data h hay.data

/-! ## First-match decomposition for `List.find?` -/

theorem findDecomp {α : Type} (p : α → Bool) (l : List α) :
    (∃ r pre suf, l.find? p = some r ∧ l = pre ++ r :: suf ∧ p r = true ∧
      ∀ x ∈ pre, p x = false) ∨
    (l.find? p = none ∧ ∀ x ∈ l, p x = false) := by
  induction l with
  | nil => exact Or.inr ⟨rfl, by simp⟩
  | cons a l ih =>
    by_cases h : p a = true
    · exact Or.inl ⟨a, [], l, by rw [List.find?_cons_of_pos _ h], by simp, h, by simp⟩
    · have hfalse : p a = false := by simpa using h
      rcases ih with ⟨r, pre, suf, hf, hl, hp, hpre⟩ | ⟨hf, hall⟩
      · refine Or.inl ⟨r, a :: pre, suf, ?_, ?_, hp, ?_⟩
        · rw [List.find?_cons_of_neg _ h, hf]
        · rw [hl]; rfl
        · intro x hx
          rcases List.mem_cons.mp hx with rfl | hx2
          · exact hfalse
          · exact hpre x hx2
      · refine Or.inr ⟨?_, ?_⟩
        · rw [List.find?_cons_of_neg _ h, hf]
        · intro x hx
          rcases List.mem_cons.mp hx with rfl | hx2
          · exact hfalse
          · exact hall x hx2

/-! ## The claims -/

/-- C1: In the driver scenario, after DropTable, then CreateTable returning true,
then InsertOne of the Neo/Anderson 6-tuple, then the batch insert of the three
people Janey/Doe, Joey/Shmo and Jonny/Smith, a call to FetchAll returns exactly
4 rows, ordered by lastname as Anderson, Doe, Shmo, Smith.  Starting from any
database state, `main_scenario` reports successful creation and fetches exactly
the four inserted rows, whose lastnames read Anderson, Doe, Shmo, Smith. -/
theorem C1_driver_scenario (db : DB) :
    main_scenario db = .ok (true, [neo, janey, joey, jonny]) ∧
    List.map Person.lastname [neo, janey, joey, jonny] =
      ["Anderson", "Doe", "Shmo", "Smith"] ∧
    List.length [neo, janey, joey, jonny] = 4 :=
  ⟨rfl, rfl, rfl⟩

/-- C2 (counterexample): the claim says the batch insert takes the sequence of
rows to append as its parameter and appends exactly that argument sequence; but
`populate_table` has no such parameter and always appends the three hardcoded
rows — from the empty table it produces Janey/Joey/Jonny, while the spec's
parametric `insertManySpec` applied to the empty sequence appends nothing. -/
theorem C2_counterexample :
    populate_table { person := some [] } = .ok { person := some [janey, joey, jonny] } ∧
    insertManySpec [] { person := some [] } = .ok { person := some [] } :=
  ⟨rfl, rfl⟩

/-- C2 (amended): the batch insert `populate_table` takes no sequence
parameter; on every database state it behaves exactly like the spec's
InsertMany applied to the fixed hardcoded sequence `people` =
[Janey/Doe, Joey/Shmo, Jonny/Smith] — appending those three rows in one batch
statement when the table exists, faulting when it does not. -/
theorem C2_amended_populate (db : DB) :
    populate_table db = insertManySpec people db ∧
    people = [janey, joey, jonny] := by
  obtain ⟨p⟩ := db
  cases p with
  | none => exact ⟨rfl, rfl⟩
  | some rows => exact ⟨rfl, rfl⟩

/-- C3: FindByLastNameExact performs a case-sensitive exact equality match on
the lastname column and returns the single first matching row wrapped in a
one-element sequence; when no row matches it returns the one-element sequence
containing the null sentinel, not an empty sequence.  On any existing table,
the result is `[res]` where `res` is `some` of the first row (in insertion
order) whose lastname is literally equal to the search string — every earlier
row differing — or `none` when no row's lastname equals it. -/
theorem C3_search_lastname_exact (l : String) (db : DB) (rows : List Person)
    (h : db.person = some rows) :
    ∃ res, search_lastname_exact l db = .ok (db, [res]) ∧
      ((∃ r pre suf, res = some r ∧ rows = pre ++ r :: suf ∧ r.lastname = l ∧
          ∀ x ∈ pre, x.lastname ≠ l) ∨
        (res = none ∧ ∀ x ∈ rows, x.lastname ≠ l)) := by
  refine ⟨rows.find? (fun r => r.lastname == l), ?_, ?_⟩
  · unfold search_lastname_exact
    rw [h]
  · rcases findDecomp (fun r => r.lastname == l) rows with
      ⟨r, pre, suf, hf, hl, hp, hpre⟩ | ⟨hf, hall⟩
    · refine Or.inl ⟨r, pre, suf, hf, hl, ?_, ?_⟩
      · have hp2 : (r.lastname == l) = true := hp
        exact eq_of_beq hp2
      · intro x hx
        have hx2 : (x.lastname == l) = false := hpre x hx
        exact fun he => by simp [he] at hx2
    · refine Or.inr ⟨hf, ?_⟩
      intro x hx
      have hx2 : (x.lastname == l) = false := hall x hx
      exact fun he => by simp [he] at hx2

/-- C3 witness: in the driver's table, searching the exact lastname "Shmo"
satisfies the theorem at a concrete state. -/
theorem C3_search_lastname_exact_witness :
    (DB.mk (some [neo, janey, joey, jonny])).person = some [neo, janey, joey, jonny] ∧
    (∃ res, search_lastname_exact ("Shmo") (DB.mk (some [neo, janey, joey, jonny])) =
        .ok (DB.mk (some [neo, janey, joey, jonny]), [res]) ∧
      ((∃ r pre suf, res = some r ∧ [neo, janey, joey, jonny] = pre ++ r :: suf ∧
          r.lastname = "Shmo" ∧ ∀ x ∈ pre, x.lastname ≠ "Shmo") ∨
        (res = none ∧ ∀ x ∈ [neo, janey, joey, jonny], x.lastname ≠ "Shmo"))) :=
  ⟨rfl, C3_search_lastname_exact ("Shmo") (DB.mk (some [neo, janey, joey, jonny]))
    [neo, janey, joey, jonny] rfl⟩

/-- C4: for every database state with an existing table, FetchAll succeeds and
returns a permutation of the stored rows sorted non-decreasing by lastname
under the engine's default (BINARY) text comparison, and returns the empty
sequence — not a fault — when the table is empty. -/
theorem C4_fetch_table (db : DB) (rows : List Person) (h : db.person = some rows) :
    ∃ out, fetch_table db = .ok (db, out) ∧ out.Perm rows ∧
      List.Sorted lastnameLe out ∧ (rows = [] → out = []) := by
  haveI : IsTotal Person lastnameLe := ⟨fun a b => strLe_total _ _⟩
  haveI : IsTrans Person lastnameLe := ⟨fun _ _ _ h1 h2 => strLe_trans h1 h2⟩
  refine ⟨List.insertionSort lastnameLe rows, ?_, List.perm_insertionSort _ _,
    List.sorted_insertionSort _ _, ?_⟩
  · unfold fetch_table
    rw [h]
  · rintro rfl
    rfl

/-- C4 witness: fetching a two-row table (stored out of order) satisfies the
theorem at a concrete state. -/
theorem C4_fetch_table_witness :
    (DB.mk (some [joey, janey])).person = some [joey, janey] ∧
    (∃ out, fetch_table (DB.mk (some [joey, janey])) = .ok (DB.mk (some [joey, janey]), out) ∧
      out.Perm [joey, janey] ∧ List.Sorted lastnameLe out ∧
      ([joey, janey] = ([] : List Person) → out = [])) :=
  ⟨rfl, C4_fetch_table (DB.mk (some [joey, janey])) [joey, janey] rfl⟩

/-- C5: FindByBiographyContains performs a case-insensitive, wildcard-wrapped
substring match over the biography column and returns only the first matching
row — a single record, or null when no row matches — rather than a sequence of
all matches.  For a wildcard-free search string, on any existing table the
result is `some` of the first row (in insertion order) whose biography contains
the string up to ASCII case — every earlier row not containing it — or `none`
when no biography contains it. -/
theorem C5_search_biography (bio : String) (db : DB) (rows : List Person)
    (h : db.person = some rows) (hw : noWild bio) :
    ∃ res, search_biography_like bio db = .ok (db, res) ∧
      ((∃ r pre suf, res = some r ∧ rows = pre ++ r :: suf ∧
          containsCI bio r.biography ∧ ∀ x ∈ pre, ¬ containsCI bio x.biography) ∨
        (res = none ∧ ∀ x ∈ rows, ¬ containsCI bio x.biography)) := by
  refine ⟨rows.find? (fun r => sqlLike r.biography ("%" ++ bio ++ "%")), ?_, ?_⟩
  · unfold search_biography_like
    rw [h]
  · rcases findDecomp (fun r => sqlLike r.biography ("%" ++ bio ++ "%")) rows with
      ⟨r, pre, suf, hf, hl, hp, hpre⟩ | ⟨hf, hall⟩
    · refine Or.inl ⟨r, pre, suf, hf, hl, ?_, ?_⟩
      · have hp2 : sqlLike r.biography ("%" ++ bio ++ "%") = true := hp
        exact (sqlLike_wrap_iff bio r.biography hw).mp hp2
      · intro x hx hc
        have h1 := (sqlLike_wrap_iff bio x.biography hw).mpr hc
        have h2 : sqlLike x.biography ("%" ++ bio ++ "%") = false := hpre x hx
        rw [h1] at h2
        exact Bool.true_eq_false_eq_False h2
    · refine Or.inr ⟨hf, ?_⟩
      intro x hx hc
      have h1 := (sqlLike_wrap_iff bio x.biography hw).mpr hc
      have h2 : sqlLike x.biography ("%" ++ bio ++ "%") = false := hall x hx
      rw [h1] at h2
      exact Bool.true_eq_false_eq_False h2

/-- C5 witness: in the driver's table, the upper-case search string "ENG"
(wildcard-free) satisfies the theorem at a concrete state; the stored biography
"Jane Doe is a Software Engineer." contains it case-insensitively. -/
theorem C5_search_biography_witness :
    (DB.mk (some [neo, janey, joey, jonny])).person = some [neo, janey, joey, jonny] ∧
    noWild ("ENG") ∧
    (∃ res, search_biography_like ("ENG") (DB.mk (some [neo, janey, joey, jonny])) =
        .ok (DB.mk (some [neo, janey, joey, jonny]), res) ∧
      ((∃ r pre suf, res = some r ∧ [neo, janey, joey, jonny] = pre ++ r :: suf ∧
          containsCI ("ENG") r.biography ∧ ∀ x ∈ pre, ¬ containsCI ("ENG") x.biography) ∨
        (res = none ∧ ∀ x ∈ [neo, janey, joey, jonny], ¬ containsCI ("ENG") x.biography))) :=
  ⟨rfl, by decide, C5_search_biography ("ENG") (DB.mk (some [neo, janey, joey, jonny]))
    [neo, janey, joey, jonny] rfl (by decide)⟩

/-- C6: FindByLastNameContains performs a case-insensitive substring match over
the lastname column and returns all matching rows, each projected to only the
pair (firstname, lastname), ordered ascending by firstname.  For a
wildcard-free search string, on any existing table the result is exactly the
(firstname, lastname) projections of the rows whose lastname contains the
string up to ASCII case, sorted by firstname under the engine's default
(BINARY) text comparison. -/
theorem C6_search_lastname_fullname (find : String) (db : DB) (rows : List Person)
    (h : db.person = some rows) (hw : noWild find) :
    ∃ out, search_lastname_like_fullname find db = .ok (db, out) ∧
      out.Perm ((rows.filter (fun r => decide (containsCI find r.lastname))).map
        (fun r => (r.firstname, r.lastname))) ∧
      List.Sorted firstnamePairLe out := by
  haveI : IsTotal (String × String) firstnamePairLe := ⟨fun a b => strLe_total _ _⟩
  haveI : IsTrans (String × String) firstnamePairLe := ⟨fun _ _ _ h1 h2 => strLe_trans h1 h2⟩
  have hfilter : rows.filter (fun r => sqlLike r.lastname ("%" ++ find ++ "%")) =
      rows.filter (fun r => decide (containsCI find r.lastname)) := by
    apply List.filter_congr
    intro x _
    rw [Bool.eq_iff_iff, sqlLike_wrap_iff find x.lastname hw, decide_eq_true_eq]
  refine ⟨List.insertionSort firstnamePairLe
    ((rows.filter (fun r => sqlLike r.lastname ("%" ++ find ++ "%"))).map
      (fun r => (r.firstname, r.lastname))), ?_, ?_, List.sorted_insertionSort _ _⟩
  · unfold search_lastname_like_fullname
    rw [h]
  · rw [← hfilter]
    exact List.perm_insertionSort _ _

/-- C6 witness: in the driver's table, the driver's own search string "s"
(wildcard-free) satisfies the theorem at a concrete state. -/
theorem C6_search_lastname_fullname_witness :
    (DB.mk (some [neo, janey, joey, jonny])).person = some [neo, janey, joey, jonny] ∧
    noWild ("s") ∧
    (∃ out, search_lastname_like_fullname ("s") (DB.mk (some [neo, janey, joey, jonny])) =
        .ok (DB.mk (some [neo, janey, joey, jonny]), out) ∧
      out.Perm (([neo, janey, joey, jonny].filter
          (fun r => decide (containsCI ("s") r.lastname))).map
        (fun r => (r.firstname, r.lastname))) ∧
      List.Sorted firstnamePairLe out) :=
  ⟨rfl, by decide, C6_search_lastname_fullname ("s") (DB.mk (some [neo, janey, joey, jonny]))
    [neo, janey, joey, jonny] rfl (by decide)⟩

/-- C7: CreateTable returns false exactly when the person table already exists
(the only engine error possible on this fixed schema, and the one its
`try/except` converts to the boolean signal instead of propagating), and true
otherwise; on success it creates the empty table, on failure it leaves the
state untouched.  The total return type `DB × Bool` — no `Except` — is the
caught-and-converted failure. -/
theorem C7_create_table (db : DB) :
    ((create_table db).2 = false ↔ db.person ≠ none) ∧
    ((create_table db).2 = true ↔ db.person = none) ∧
    ((create_table db).2 = false → (create_table db).1 = db) ∧
    ((create_table db).2 = true → (create_table db).1 = { person := some [] }) := by
  obtain ⟨p⟩ := db
  cases p with
  | none => simp [create_table]
  | some rows => simp [create_table]

/-- C7 witness: on a state where the table already exists, creation reports
failure and leaves the state unchanged. -/
theorem C7_create_table_witness :
    ((create_table (DB.mk (some []))).2 = false ↔ (DB.mk (some [])).person ≠ none) ∧
    ((create_table (DB.mk (some []))).2 = true ↔ (DB.mk (some [])).person = none) ∧
    ((create_table (DB.mk (some []))).2 = false →
      (create_table (DB.mk (some []))).1 = DB.mk (some [])) ∧
    ((create_table (DB.mk (some []))).2 = true →
      (create_table (DB.mk (some []))).1 = { person := some [] }) :=
  C7_create_table (DB.mk (some []))

/-- C8: DropTable is idempotent — dropping twice equals dropping once, dropping
removes the table, and dropping when the table does not exist is the identity
on that state; the operation is a total function (no fault) returning no
value beyond the new state. -/
theorem C8_drop_table (db : DB) :
    drop_table (drop_table db) = drop_table db ∧
    (drop_table db).person = none ∧
    drop_table { person := none } = { person := none } :=
  ⟨rfl, rfl, rfl⟩

/-- C9: round-trip — for every 6-tuple of text values and every state with an
existing table, inserting the tuple via InsertOne and then calling FetchAll
succeeds and yields a returned row equal field-for-field (Person equality is
field-wise in the fixed column order) to the inserted tuple. -/
theorem C9_round_trip (p : Person) (db : DB) (rows : List Person)
    (h : db.person = some rows) :
    ∃ db2, insert_table p db = .ok db2 ∧
      ∃ out, fetch_table db2 = .ok (db2, out) ∧ p ∈ out := by
  refine ⟨{ person := some (rows ++ [p]) }, ?_,
    List.insertionSort lastnameLe (rows ++ [p]), rfl, ?_⟩
  · unfold insert_table
    rw [h]
  · exact (List.perm_insertionSort _ _).mem_iff.mpr (by simp)

/-- C9 witness: inserting the Neo/Anderson tuple into the freshly created empty
table and fetching satisfies the theorem at a concrete state. -/
theorem C9_round_trip_witness :
    (DB.mk (some [])).person = some ([] : List Person) ∧
    (∃ db2, insert_table neo (DB.mk (some [])) = .ok db2 ∧
      ∃ out, fetch_table db2 = .ok (db2, out) ∧ neo ∈ out) :=
  ⟨rfl, C9_round_trip neo (DB.mk (some [])) [] rfl⟩

/-- C10: for every database state and every input, each read operation —
FetchAll, FindByLastNameExact, FindByBiographyContains,
FindByLastNameContains — leaves the database state (schema and stored rows)
exactly unchanged: the state each returns on success is the state it was run
on, and on failure no state change occurred. -/
theorem C10_reads_preserve_state (db : DB) (l b f : String) :
    dbAfter (fetch_table db) db = db ∧
    dbAfter (search_lastname_exact l db) db = db ∧
    dbAfter (search_biography_like b db) db = db ∧
    dbAfter (search_lastname_like_fullname f db) db = db := by
  obtain ⟨p⟩ := db
  cases p with
  | none => exact ⟨rfl, rfl, rfl, rfl⟩
  | some rows => exact ⟨rfl, rfl, rfl, rfl⟩

end SqliteTutorial
